import Mathlib

/-!
# Verification of the Lingo translation pipeline

A shallow embedding of the core of `src/lingo/index.tsx` (a Vencord
translation plugin) together with proofs about its cache keys, persistent
translation memory, backend fallback logic, request deduplication and
mutation batching.

JavaScript strings are modelled as `List Char`; JS `Map`s are modelled as
insertion-ordered association lists with unique keys (`setAssoc` updates in
place or appends, `eraseAssoc` removes the unique binding, matching
`Map.set` / `Map.delete`).  Timestamps (`Date.now()`) are modelled as `Int`.
-/

namespace Lingo

abbrev Str := List Char

/-- Models `Map.get` on an insertion-ordered association list. -/
def getAssoc {α : Type} (k : Str) : List (Str × α) → Option α
  | [] => none
  | (k', v) :: rest => if k' = k then some v else getAssoc k rest

/-- Models `Map.set`: replaces the value in place when the key exists, appends otherwise. -/
def setAssoc {α : Type} (k : Str) (v : α) : List (Str × α) → List (Str × α)
  | [] => [(k, v)]
  | (k', v') :: rest => if k' = k then (k, v) :: rest else (k', v') :: setAssoc k v rest

/-- Models `Map.delete`: removes the (unique) binding of `k`, if present. -/
def eraseAssoc {α : Type} (k : Str) : List (Str × α) → List (Str × α)
  | [] => []
  | (k', v') :: rest => if k' = k then rest else (k', v') :: eraseAssoc k rest

theorem getAssoc_setAssoc {α : Type} (k : Str) (v : α) (l : List (Str × α)) :
    getAssoc k (setAssoc k v l) = some v := by
  induction l with
  | nil => simp [setAssoc, getAssoc]
  | cons p rest ih =>
    by_cases h : p.1 = k
    · simp [setAssoc, getAssoc, h]
    · simp [setAssoc, getAssoc, h, ih]

theorem getAssoc_setAssoc_ne {α : Type} (k k' : Str) (v : α) (l : List (Str × α))
    (hne : k' ≠ k) : getAssoc k' (setAssoc k v l) = getAssoc k' l := by
  have hkk : ¬ k = k' := fun h => hne h.symm
  induction l with
  | nil => simp [setAssoc, getAssoc, hkk]
  | cons p rest ih =>
    by_cases h : p.1 = k
    · have hp : ¬ p.1 = k' := by rw [h]; exact hkk
      simp [setAssoc, getAssoc, h, hkk, hp]
    · by_cases h2 : p.1 = k' <;> simp [setAssoc, getAssoc, h, h2, ih, hne]

/-! ## Text normalization (`normalizeTextForMemory`) -/

/-- The JavaScript whitespace class (`\s` in regexes, and the set trimmed by
`String.prototype.trim`), by code point. -/
def isJsWs (c : Char) : Bool :=
  [9, 10, 11, 12, 13, 32, 160, 0x1680, 0x2000, 0x2001, 0x2002, 0x2003, 0x2004,
   0x2005, 0x2006, 0x2007, 0x2008, 0x2009, 0x200a, 0x2028, 0x2029, 0x202f,
   0x205f, 0x3000, 0xfeff].contains c.toNat

def trimLeft (l : Str) : Str := l.dropWhile isJsWs

def trimRight (l : Str) : Str := (l.reverse.dropWhile isJsWs).reverse

/-- Models `String.prototype.trim`. -/
def jsTrim (l : Str) : Str := trimRight (trimLeft l)

/-- Models `replace(/\s+/g, " ")`: each maximal whitespace run becomes one space.
The `prevWs` flag records whether the previous character was part of a run. -/
def collapseGo : Bool → Str → Str
  | _, [] => []
  | prevWs, c :: rest =>
    if isJsWs c then
      if prevWs then collapseGo true rest else ' ' :: collapseGo true rest
    else c :: collapseGo false rest

def collapseWhitespace (l : Str) : Str := collapseGo false l

/-- Models `text.trim().replace(/\s+/g, " ")` from the source. -/
def normalizeTextForMemory (l : Str) : Str := collapseWhitespace (jsTrim l)

/-! ## FNV-style hash (`hashText`) and the durable memory key

The JS source keeps `hash` as a JS number, repeatedly coerced through
`ToInt32` by `^=` and `<<`, and finally through `ToUint32` by `>>> 0`.
Every observation of the accumulator is mod `2^32`, so we carry the
accumulator reduced mod `2^32` as a `Nat`; the signed/unsigned distinction
is invisible mod `2^32`. -/

def hashStep (h : Nat) (c : Char) : Nat :=
  let x := (h ^^^ c.toNat) % 2 ^ 32
  (x + (x * 2 + x * 16 + x * 128 + x * 256 + x * 2 ^ 24)) % 2 ^ 32

def hexDigit (n : Nat) : Char := ("0123456789abcdef".toList).getD n '0'

/-- Digit rendering with structural fuel (fuel `n` always suffices). -/
def natToHexAux : Nat → Nat → Str
  | 0, _ => []
  | _, 0 => []
  | fuel + 1, n + 1 => natToHexAux fuel ((n + 1) / 16) ++ [hexDigit ((n + 1) % 16)]

/-- Models `(n).toString(16)` for an unsigned 32-bit value. -/
def natToHex (n : Nat) : Str := if n = 0 then ['0'] else natToHexAux n n

/-- Models `padStart(width, c)`. -/
def padStart (width : Nat) (c : Char) (s : Str) : Str :=
  List.replicate (width - s.length) c ++ s

/-- Models `hashText` from the source: FNV-style fold, rendered as 8 hex digits. -/
def hashText (input : Str) : Str :=
  padStart 8 '0' (natToHex (input.foldl hashStep 2166136261 % 2 ^ 32))

/-- Models `String(n)` (decimal rendering of a length). -/
def natToDecimalAux : Nat → Nat → Str
  | 0, _ => []
  | _, 0 => []
  | fuel + 1, n + 1 => natToDecimalAux fuel ((n + 1) / 10) ++ [hexDigit ((n + 1) % 10)]

def natToDecimal (n : Nat) : Str := if n = 0 then ['0'] else natToDecimalAux n n

/-- Models `makePersistentMemoryKey`: `fingerprint + ":" + normalized.length + ":" + hash(normalized)`. -/
def makePersistentMemoryKey (text : Str) (translatorConfigFingerprint : Str) : Str :=
  let normalized := normalizeTextForMemory text
  translatorConfigFingerprint ++ ':' :: natToDecimal normalized.length
    ++ ':' :: hashText normalized

/-! ## Data model -/

inductive TranslationState : Type
  | idle : TranslationState
  | pending : TranslationState
  | ready (sourceLanguage : Str) (text : Str) : TranslationState
  | error (message : Str) : TranslationState
deriving DecidableEq, Repr

structure TranslationValue : Type where
  sourceLanguage : Str
  text : Str
deriving DecidableEq, Repr

structure PersistentTranslationEntry : Type where
  normalizedSource : Str
  translatedText : Str
  sourceLanguage : Str
  cachedAt : Int
  lastUsedAt : Int
deriving DecidableEq, Repr

inductive BackendMode : Type
  | AzureGoogleFallback
  | AzureOnly
  | GoogleOnly
deriving DecidableEq, Repr

/-- The string values of the `BackendMode` enum. -/
def backendModeString : BackendMode → Str
  | .AzureGoogleFallback => "azure-google-fallback".toList
  | .AzureOnly => "azure-only".toList
  | .GoogleOnly => "google-only".toList

/-- The settings fields consulted by the fingerprint and the backends.
`Option` models possibly-`undefined` string settings. -/
structure LingoSettings : Type where
  targetLanguage : Option Str
  translationBackend : BackendMode
  azureApiKey : Option Str
  azureRegion : Option Str
  azureEndpoint : Option Str
deriving DecidableEq, Repr

def DEFAULT_TARGET_LANGUAGE : Str := "sv".toList

def DEFAULT_AZURE_ENDPOINT : Str := "https://api.cognitive.microsofttranslator.com".toList

/-- Models `(targetLanguage?.trim() || DEFAULT_TARGET_LANGUAGE).toLowerCase()`. -/
def normalizeTargetLanguage (targetLanguage : Option Str) : Str :=
  let trimmed := (targetLanguage.map jsTrim).getD []
  (if trimmed = [] then DEFAULT_TARGET_LANGUAGE else trimmed).map Char.toLower

/-- Models `(endpoint?.trim() || DEFAULT_AZURE_ENDPOINT).replace(/\/+$/, "")`. -/
def normalizeAzureEndpoint (endpoint : Option Str) : Str :=
  let trimmed := (endpoint.map jsTrim).getD []
  let raw := if trimmed = [] then DEFAULT_AZURE_ENDPOINT else trimmed
  (raw.reverse.dropWhile (fun c => c = '/')).reverse

/-- Models `Boolean(settings.store.azureApiKey?.trim())`. -/
def hasAzureConfig (s : LingoSettings) : Bool :=
  (s.azureApiKey.map jsTrim).getD [] ≠ []

/-- Models `[...].join("|")`. -/
def joinPipe : List Str → Str
  | [] => []
  | [x] => x
  | x :: y :: rest => x ++ '|' :: joinPipe (y :: rest)

/-- Models `getTranslatorConfigFingerprint` from the source. -/
def getTranslatorConfigFingerprint (s : LingoSettings) : Str :=
  let hasKey : Str :=
    if (s.azureApiKey.map jsTrim).getD [] ≠ [] then "with-key".toList else "no-key".toList
  joinPipe
    [normalizeTargetLanguage s.targetLanguage,
     backendModeString s.translationBackend,
     normalizeAzureEndpoint s.azureEndpoint,
     (s.azureRegion.map (fun r => (jsTrim r).map Char.toLower)).getD [],
     hasKey]

/-! ## Persistent translation store -/

/-- Models `settings.store.persistentCacheTtlDays * 24 * 60 * 60 * 1000`. -/
def getPersistentCacheTtlMs (ttlDays : Nat) : Int := (ttlDays : Int) * 24 * 60 * 60 * 1000

/-- Models `now - entry.cachedAt > ttlMs`. -/
def isPersistentEntryExpired (entry : PersistentTranslationEntry) (now ttlMs : Int) : Bool :=
  now - entry.cachedAt > ttlMs

abbrev PersistentStore := List (Str × PersistentTranslationEntry)

/-- Comparator used by `prunePersistentMemory`'s sort:
`(a, b) => a[1].lastUsedAt - b[1].lastUsedAt` (ascending, stable). -/
def lastUsedLe (a b : Str × PersistentTranslationEntry) : Bool :=
  a.2.lastUsedAt ≤ b.2.lastUsedAt

/-- Models `prunePersistentMemory`: drop TTL-expired entries, then, if the count still
exceeds `maxEntries`, delete the `count - maxEntries` entries with smallest
`lastUsedAt` (stable sort, like `Array.prototype.sort`). -/
def prunePersistentMemory (now ttlMs : Int) (maxEntries : Nat)
    (store : PersistentStore) : PersistentStore :=
  let store1 := store.filter (fun kv => ¬ isPersistentEntryExpired kv.2 now ttlMs)
  if store1.length ≤ maxEntries then store1
  else
    let overflow := store1.length - maxEntries
    let oldestKeys := ((store1.mergeSort lastUsedLe).take overflow).map Prod.fst
    oldestKeys.foldl (fun acc k => eraseAssoc k acc) store1

/-- Models `tryGetPersistentTranslation`: returns the looked-up state (if any) and the
updated store.  The `await ensurePersistentMemoryLoaded()` lazy load is a
no-op here (the store parameter is the loaded memory). -/
def tryGetPersistentTranslation (enabled : Bool) (ttlMs : Int) (now : Int)
    (store : PersistentStore) (text : Str) (translatorConfigFingerprint : Str) :
    Option TranslationState × PersistentStore :=
  if ¬ enabled then (none, store)
  else
    let normalized := normalizeTextForMemory text
    if normalized = [] then (none, store)
    else
      let key := makePersistentMemoryKey text translatorConfigFingerprint
      match getAssoc key store with
      | none => (none, store)
      | some entry =>
        if entry.normalizedSource ≠ normalized then (none, store)
        else if isPersistentEntryExpired entry now ttlMs then
          (none, eraseAssoc key store)
        else
          (some (.ready entry.sourceLanguage entry.translatedText),
           setAssoc key { entry with lastUsedAt := now } store)

/-! ## Backend resolver -/

structure GoogleTranslateResponse : Type where
  sourceLanguage : Option Str
  translation : Option Str
deriving DecidableEq, Repr

instance {ε α : Type} [DecidableEq ε] [DecidableEq α] : DecidableEq (Except ε α) := fun x y =>
  match x, y with
  | .ok a, .ok b =>
    if h : a = b then .isTrue (by rw [h]) else .isFalse (by simp [h])
  | .ok _, .error _ => .isFalse (by simp)
  | .error _, .ok _ => .isFalse (by simp)
  | .error a, .error b =>
    if h : a = b then .isTrue (by rw [h]) else .isFalse (by simp [h])

/-- The observable part of the `fetch` to the Google endpoint: HTTP status and
the parse outcome of `response.json()`. -/
structure GoogleHttpResponse : Type where
  status : Nat
  json : Except Str GoogleTranslateResponse
deriving DecidableEq, Repr

/-- JS `||` on a possibly-missing string: `undefined` and `""` are falsy. -/
def jsOrElse (o : Option Str) (d : Str) : Str :=
  match o with
  | none => d
  | some s => if s = [] then d else s

def GOOGLE_FAIL_MESSAGE : Str := "Translate request failed".toList

/-- Models `fetchGoogleTranslation`, parameterized by the network response.  `response.ok`
is `200 <= status < 300`; a non-ok status or a JSON parse failure throws,
otherwise missing fields fall back (`data.sourceLanguage || "auto"`,
`data.translation || text`). -/
def fetchGoogleTranslation (text : Str) (_targetLanguage : Str)
    (resp : GoogleHttpResponse) : Except Str TranslationValue :=
  if ¬ (200 ≤ resp.status ∧ resp.status < 300) then .error GOOGLE_FAIL_MESSAGE
  else
    match resp.json with
    | .error e => .error e
    | .ok data =>
      .ok { sourceLanguage := jsOrElse data.sourceLanguage ("auto".toList),
            text := jsOrElse data.translation text }

def UNAVAILABLE_MESSAGE : Str := "translation unavailable".toList

def AZURE_KEY_MESSAGE : Str := "set azure key in plugin settings".toList

/-- Models `fetchTranslation`, parameterized by the outcomes of the two backend calls
(`azureResult` is the result `fetchAzureTranslation` would produce when
invoked, `googleResult` likewise for `fetchGoogleTranslation`). -/
def fetchTranslation (s : LingoSettings)
    (azureResult : Except Str TranslationValue)
    (googleResult : Except Str TranslationValue) : TranslationState :=
  let backendMode := s.translationBackend
  let wrapReady : TranslationValue → TranslationState :=
    fun v => .ready v.sourceLanguage v.text
  if backendMode = .GoogleOnly then
    match googleResult with
    | .ok v => wrapReady v
    | .error _ => .error UNAVAILABLE_MESSAGE
  else
    let azureConfigured := hasAzureConfig s
    if ¬ azureConfigured ∧ backendMode = .AzureOnly then .error AZURE_KEY_MESSAGE
    else
      match azureConfigured, azureResult with
      | true, .ok v => wrapReady v
      | true, .error e =>
        if backendMode = .AzureOnly then .error e
        else
          match googleResult with
          | .ok v => wrapReady v
          | .error _ => .error UNAVAILABLE_MESSAGE
      | false, _ =>
        match googleResult with
        | .ok v => wrapReady v
        | .error _ => .error UNAVAILABLE_MESSAGE

/-! ## Volatile cache + in-flight registry (`requestTranslation`)

JS is single-threaded: the body of `requestTranslation` up to
`inFlightRequests.set(key, request)` runs atomically, and the producer's
completion handler (`.then`/`.catch`/`.finally`) runs later as a separate
atomic step.  We model those two synchronous steps; a returned promise is
either an already-resolved value or a reference to a registered producer. -/

def MAX_IN_MEMORY_TRANSLATIONS : Nat := 2500

/-- Models `pruneInMemoryTranslationCache`: evict oldest-inserted entries while over
the bound. -/
def pruneInMemoryTranslationCache (cache : List (Str × TranslationState)) :
    List (Str × TranslationState) :=
  if cache.length ≤ MAX_IN_MEMORY_TRANSLATIONS then cache
  else cache.drop (cache.length - MAX_IN_MEMORY_TRANSLATIONS)

/-- Models `getMessageCacheKey`: `messageId + ":" + sourceContent + ":" + fingerprint`. -/
def getMessageCacheKey (messageId sourceContent translatorConfigFingerprint : Str) : Str :=
  messageId ++ ':' :: sourceContent ++ ':' :: translatorConfigFingerprint

inductive PromiseRef : Type
  | resolved (v : TranslationState)
  | pendingPromise (id : Nat)
deriving DecidableEq, Repr

/-- The promise a pending reference eventually resolves to, given the eventual
result `f pid` of each producer. -/
def resolveRef (f : Nat → TranslationState) : PromiseRef → TranslationState
  | .resolved v => v
  | .pendingPromise pid => f pid

structure ReqState : Type where
  translationCache : List (Str × TranslationState)
  inFlightRequests : List (Str × Nat)
  nextPromiseId : Nat
  /-- One record `(messageId, sourceContent, fingerprint)` per producer ever
  started (each producer performs a persistent-store lookup and, on miss,
  a scheduled backend call). -/
  startedProducers : List (Str × Str × Str)
deriving DecidableEq, Repr

def initialReqState : ReqState := ⟨[], [], 0, []⟩

/-- The synchronous prefix of `requestTranslation`: cache hit, in-flight hit,
or registration of a fresh producer. -/
def requestTranslation (st : ReqState) (messageId sourceContent translatorConfigFingerprint : Str) :
    PromiseRef × ReqState :=
  let key := getMessageCacheKey messageId sourceContent translatorConfigFingerprint
  match getAssoc key st.translationCache with
  | some cached => (.resolved cached, st)
  | none =>
    match getAssoc key st.inFlightRequests with
    | some pid => (.pendingPromise pid, st)
    | none =>
      let pid := st.nextPromiseId
      (.pendingPromise pid,
       { st with
         inFlightRequests := setAssoc key pid st.inFlightRequests,
         nextPromiseId := pid + 1,
         startedProducers :=
           st.startedProducers ++ [(messageId, sourceContent, translatorConfigFingerprint)] })

/-- Completion handler of a producer: store the result in the volatile cache,
prune it, and delete the in-flight entry. -/
def settleTranslation (st : ReqState) (key : Str) (result : TranslationState) : ReqState :=
  { st with
    translationCache := pruneInMemoryTranslationCache (setAssoc key result st.translationCache),
    inFlightRequests := eraseAssoc key st.inFlightRequests }

inductive ReqEvent : Type
  | request (messageId sourceContent translatorConfigFingerprint : Str)
  | settle (key : Str) (result : TranslationState)

def stepReqEvent (st : ReqState) : ReqEvent → ReqState
  | .request mid src fp => (requestTranslation st mid src fp).2
  | .settle key result => settleTranslation st key result

def runReqEvents (st : ReqState) (events : List ReqEvent) : ReqState :=
  events.foldl stepReqEvent st

/-- Number of in-flight producers registered under a given cache key. -/
def countKeyInFlight (k : Str) (st : ReqState) : Nat :=
  (st.inFlightRequests.filter (fun p => p.1 = k)).length

/-- Number of producers ever started for a given (messageId, text, fingerprint). -/
def countStartedFor (tr : Str × Str × Str) (st : ReqState) : Nat :=
  (st.startedProducers.filter (fun p => p = tr)).length

/-- Runs `N` consecutive invocations of `requestTranslation` for the same triple,
none of whose producers has settled in between. -/
def repeatRequest (st : ReqState) (mid src fp : Str) : Nat → List PromiseRef × ReqState
  | 0 => ([], st)
  | n + 1 =>
    let r := requestTranslation st mid src fp
    let rest := repeatRequest r.2 mid src fp n
    (r.1 :: rest.1, rest.2)

/-! ## Mutation batcher -/

def MESSAGE_MUTATION_FLUSH_BATCH_SIZE : Nat := 6

def MESSAGE_MUTATION_FLUSH_DELAY_MS : Nat := 24

structure MessageMutation : Type where
  channelId : Str
  content : Str
  originalContent : Str
  translatedContent : Str
deriving DecidableEq, Repr

structure TrackedMessageEntry : Type where
  channelId : Str
  originalContent : Str
  translatedContent : Str
deriving DecidableEq, Repr

/-- The fields of a Discord message object the batcher reads: id, channel,
current content and the two stashed shadow fields. -/
structure MsgView : Type where
  id : Str
  channelId : Str
  content : Str
  originalField : Option Str
  translatedField : Option Str
deriving DecidableEq, Repr

structure BatcherState : Type where
  pendingMessageMutations : List (Str × MessageMutation)
  /-- Models `mutationFlushTimer`: delay of the scheduled flush, if one is pending. -/
  flushTimer : Option Nat
  /-- Log of `safeUpdateMessage` calls performed so far, in order. -/
  applied : List (Str × MessageMutation)
deriving DecidableEq, Repr

/-- Models `scheduleMessageMutationFlush`: no-op if a timer is already pending. -/
def scheduleMessageMutationFlush (delay : Nat) (st : BatcherState) : BatcherState :=
  if st.flushTimer.isSome then st else { st with flushTimer := some delay }

/-- Models `flushPendingMessageMutations`, run when the timer fires (the callback
first clears `mutationFlushTimer`).  While scroll-active it performs no
mutation and reschedules itself 150ms later; otherwise it applies up to
`MESSAGE_MUTATION_FLUSH_BATCH_SIZE` pending mutations in insertion order
and reschedules if any remain. -/
def flushPendingMessageMutations (isScrollActive : Bool) (st : BatcherState) : BatcherState :=
  let st := { st with flushTimer := none }
  if isScrollActive then scheduleMessageMutationFlush 150 st
  else
    let batch := st.pendingMessageMutations.take MESSAGE_MUTATION_FLUSH_BATCH_SIZE
    let rest := st.pendingMessageMutations.drop MESSAGE_MUTATION_FLUSH_BATCH_SIZE
    let st := { st with pendingMessageMutations := rest, applied := st.applied ++ batch }
    if rest ≠ [] then scheduleMessageMutationFlush MESSAGE_MUTATION_FLUSH_DELAY_MS st else st

/-- Models `enqueueMessageMutation`: last-write-wins per messageId; skips when the
identical mutation is already queued; schedules a flush. -/
def enqueueMessageMutation (messageId : Str) (mutation : MessageMutation)
    (st : BatcherState) : BatcherState :=
  match getAssoc messageId st.pendingMessageMutations with
  | some existing =>
    if existing = mutation then st
    else
      scheduleMessageMutationFlush MESSAGE_MUTATION_FLUSH_DELAY_MS
        { st with pendingMessageMutations :=
            setAssoc messageId mutation st.pendingMessageMutations }
  | none =>
    scheduleMessageMutationFlush MESSAGE_MUTATION_FLUSH_DELAY_MS
      { st with pendingMessageMutations :=
          setAssoc messageId mutation st.pendingMessageMutations }

/-- Models `restoreOriginalMessage`: enqueue a restore-to-original mutation unless the
message already shows its original content and nothing is queued for it.
Note: it does not consult the scroll-active flag. -/
def restoreOriginalMessage (tracked : List (Str × TrackedMessageEntry)) (msg : MsgView)
    (sourceContent : Str) (st : BatcherState) : BatcherState :=
  let tr := getAssoc msg.id tracked
  let currentContent := msg.content
  let originalContent := (tr.map (·.originalContent)).getD sourceContent
  let translatedContent := (tr.map (·.translatedContent)).getD (msg.translatedField.getD [])
  if currentContent = originalContent ∧ (getAssoc msg.id st.pendingMessageMutations).isNone
  then st
  else
    enqueueMessageMutation msg.id
      { channelId := msg.channelId, content := originalContent,
        originalContent := originalContent, translatedContent := translatedContent } st

/-- Models `applyTranslationToMessage`. -/
def applyTranslationToMessage (tracked : List (Str × TrackedMessageEntry)) (msg : MsgView)
    (sourceContent translatedText : Str) (st : BatcherState) :
    List (Str × TrackedMessageEntry) × BatcherState :=
  if msg.content = translatedText ∧ msg.originalField = some sourceContent then (tracked, st)
  else
    let tracked' := setAssoc msg.id
      { channelId := msg.channelId, originalContent := sourceContent,
        translatedContent := translatedText } tracked
    (tracked',
     enqueueMessageMutation msg.id
       { channelId := msg.channelId, content := translatedText,
         originalContent := sourceContent, translatedContent := translatedText } st)

/-- Models `replaceMessageWithTranslation`: never mutates while the user is actively
scrolling, and skips messages without a DOM node. -/
def replaceMessageWithTranslation (isScrollActive : Bool) (nodeExists : Bool)
    (tracked : List (Str × TrackedMessageEntry)) (msg : MsgView)
    (sourceContent translatedText : Str) (st : BatcherState) :
    List (Str × TrackedMessageEntry) × BatcherState :=
  if isScrollActive then (tracked, st)
  else if ¬ nodeExists then (tracked, st)
  else applyTranslationToMessage tracked msg sourceContent translatedText st

/-! ## Properties of text normalization -/

/-- Elements surviving `dropWhile p` at the head fail `p`. -/
theorem head?_dropWhile_false (p : Char → Bool) (l : Str) (c : Char)
    (h : (l.dropWhile p).head? = some c) : p c = false := by
  induction l with
  | nil => simp [List.dropWhile] at h
  | cons x xs ih =>
    rw [List.dropWhile_cons] at h
    by_cases hx : p x = true
    · exact ih (by simpa [hx] using h)
    · rw [if_neg (by simpa using hx)] at h
      simp only [List.head?_cons, Option.some.injEq] at h
      subst h
      simpa using hx

/-- After a whitespace run is collapsed, the continuation starts non-whitespace. -/
theorem collapseGo_true_head (l : Str) (c : Char)
    (h : (collapseGo true l).head? = some c) : isJsWs c = false := by
  induction l with
  | nil => simp [collapseGo] at h
  | cons x xs ih =>
    by_cases hx : isJsWs x = true
    · rw [show collapseGo true (x :: xs) = collapseGo true xs by
        simp [collapseGo, hx]] at h
      exact ih h
    · rw [show collapseGo true (x :: xs) = x :: collapseGo false xs by
        simp [collapseGo, hx]] at h
      simp only [List.head?_cons, Option.some.injEq] at h
      subst h
      simpa using hx

/-- Whitespace in the output of the collapse pass is always a plain space. -/
theorem collapseGo_mem_ws (l : Str) (prev : Bool) (c : Char)
    (hmem : c ∈ collapseGo prev l) (hws : isJsWs c = true) : c = ' ' := by
  induction l generalizing prev with
  | nil => simp [collapseGo] at hmem
  | cons x xs ih =>
    by_cases hx : isJsWs x = true
    · cases prev with
      | true =>
        rw [show collapseGo true (x :: xs) = collapseGo true xs by simp [collapseGo, hx]] at hmem
        exact ih true hmem
      | false =>
        rw [show collapseGo false (x :: xs) = ' ' :: collapseGo true xs by
          simp [collapseGo, hx]] at hmem
        rcases List.mem_cons.mp hmem with h | h
        · exact h
        · exact ih true h
    · rw [show collapseGo prev (x :: xs) = x :: collapseGo false xs by
        simp [collapseGo, hx]] at hmem
      rcases List.mem_cons.mp hmem with h | h
      · subst h; exact absurd hws (by simpa using hx)
      · exact ih false h

/-- The collapse pass never leaves two adjacent whitespace characters. -/
theorem collapseGo_chain (l : Str) (prev : Bool) :
    List.Chain' (fun a b => ¬(isJsWs a = true ∧ isJsWs b = true)) (collapseGo prev l) := by
  induction l generalizing prev with
  | nil => simp [collapseGo]
  | cons x xs ih =>
    by_cases hx : isJsWs x = true
    · cases prev with
      | true =>
        rw [show collapseGo true (x :: xs) = collapseGo true xs by simp [collapseGo, hx]]
        exact ih true
      | false =>
        rw [show collapseGo false (x :: xs) = ' ' :: collapseGo true xs by
          simp [collapseGo, hx]]
        rw [List.chain'_cons']
        refine ⟨?_, ih true⟩
        intro y hy hcontra
        have : isJsWs y = false := collapseGo_true_head xs y (Option.mem_def.mp hy)
        rw [this] at hcontra
        exact Bool.false_ne_true hcontra.2
    · rw [show collapseGo prev (x :: xs) = x :: collapseGo false xs by
        simp [collapseGo, hx]]
      rw [List.chain'_cons']
      refine ⟨?_, ih false⟩
      intro y _ hcontra
      exact hx hcontra.1

/-- The collapse pass keeps a non-whitespace head in place. -/
theorem collapseGo_head_nonws (l : Str) (c : Char)
    (h : l.head? = some c) (hws : isJsWs c = false) :
    (collapseGo false l).head? = some c := by
  cases l with
  | nil => simp at h
  | cons x xs =>
    simp only [List.head?_cons, Option.some.injEq] at h
    subst h
    simp [collapseGo, hws]

/-- The collapse pass preserves non-whitespace-ness of the last character. -/
theorem collapseGo_getLast (l : Str) (prev : Bool) (c : Char)
    (h : l.getLast? = some c) (hws : isJsWs c = false) :
    ∃ d, (collapseGo prev l).getLast? = some d ∧ isJsWs d = false := by
  induction l generalizing prev with
  | nil => simp at h
  | cons x xs ih =>
    cases xs with
    | nil =>
      simp only [List.getLast?_singleton, Option.some.injEq] at h
      subst h
      exact ⟨x, by simp [collapseGo, hws], hws⟩
    | cons y ys =>
      rw [List.getLast?_cons_cons] at h
      by_cases hx : isJsWs x = true
      · cases prev with
        | true =>
          rw [show collapseGo true (x :: y :: ys) = collapseGo true (y :: ys) by
            simp [collapseGo, hx]]
          exact ih true h
        | false =>
          rw [show collapseGo false (x :: y :: ys) = ' ' :: collapseGo true (y :: ys) by
            simp [collapseGo, hx]]
          obtain ⟨d, hd, hdws⟩ := ih true h
          refine ⟨d, ?_, hdws⟩
          cases hout : collapseGo true (y :: ys) with
          | nil => rw [hout] at hd; simp at hd
          | cons z zs => rw [hout] at hd; rw [List.getLast?_cons_cons]; exact hd
      · rw [show collapseGo prev (x :: y :: ys) = x :: collapseGo false (y :: ys) by
          simp [collapseGo, hx]]
        obtain ⟨d, hd, hdws⟩ := ih false h
        refine ⟨d, ?_, hdws⟩
        cases hout : collapseGo false (y :: ys) with
        | nil => rw [hout] at hd; simp at hd
        | cons z zs => rw [hout] at hd; rw [List.getLast?_cons_cons]; exact hd

/-- The collapse pass is the identity on already-collapsed text: all whitespace
is a single space, no two adjacent, and (when continuing a run) the head is
non-whitespace. -/
theorem collapseGo_id (l : Str) (prev : Bool)
    (hchar : ∀ c ∈ l, isJsWs c = true → c = ' ')
    (hchain : List.Chain' (fun a b => ¬(isJsWs a = true ∧ isJsWs b = true)) l)
    (hhead : prev = true → ∀ c, l.head? = some c → isJsWs c = false) :
    collapseGo prev l = l := by
  induction l generalizing prev with
  | nil => simp [collapseGo]
  | cons x xs ih =>
    obtain ⟨hx1, hchain'⟩ := List.chain'_cons'.mp hchain
    by_cases hx : isJsWs x = true
    · have hsp : x = ' ' := hchar x (List.mem_cons_self x xs) hx
      cases prev with
      | true => exact absurd (hhead rfl x rfl) (by simp [hx])
      | false =>
        rw [show collapseGo false (x :: xs) = ' ' :: collapseGo true xs by
          simp [collapseGo, hx]]
        rw [hsp]
        congr 1
        refine ih true (fun c hc => hchar c (List.mem_cons_of_mem x hc)) hchain' ?_
        intro _ c hc
        have := hx1 c (Option.mem_def.mpr hc)
        by_contra hcw
        exact this ⟨hx, by simpa using hcw⟩
    · rw [show collapseGo prev (x :: xs) = x :: collapseGo false xs by
        simp [collapseGo, hx]]
      congr 1
      exact ih false (fun c hc => hchar c (List.mem_cons_of_mem x hc)) hchain' (by simp)

theorem trimLeft_head_nonws (l : Str) (c : Char)
    (h : (trimLeft l).head? = some c) : isJsWs c = false :=
  head?_dropWhile_false isJsWs l c h

theorem trimRight_getLast_nonws (l : Str) (c : Char)
    (h : (trimRight l).getLast? = some c) : isJsWs c = false := by
  unfold trimRight at h
  rw [List.getLast?_reverse] at h
  exact head?_dropWhile_false isJsWs l.reverse c h

/-- Trimming the right end does not change a (surviving) head. -/
theorem trimRight_head (m : Str) (c : Char)
    (h : (trimRight m).head? = some c) : m.head? = some c := by
  obtain ⟨t, ht⟩ := List.dropWhile_suffix (l := m.reverse) isJsWs
  have hm : m = (m.reverse.dropWhile isJsWs).reverse ++ t.reverse := by
    have h2 := congrArg List.reverse ht
    simpa [List.reverse_append] using h2.symm
  unfold trimRight at h
  conv_lhs => rw [hm]
  rw [List.head?_append, h]
  rfl

theorem jsTrim_head_nonws (l : Str) (c : Char)
    (h : (jsTrim l).head? = some c) : isJsWs c = false :=
  trimLeft_head_nonws l c (trimRight_head (trimLeft l) c h)

theorem jsTrim_getLast_nonws (l : Str) (c : Char)
    (h : (jsTrim l).getLast? = some c) : isJsWs c = false :=
  trimRight_getLast_nonws (trimLeft l) c h

/-- Trimming is the identity on text with non-whitespace ends. -/
theorem jsTrim_id (l : Str)
    (hh : ∀ c, l.head? = some c → isJsWs c = false)
    (hl : ∀ c, l.getLast? = some c → isJsWs c = false) :
    jsTrim l = l := by
  have h1 : trimLeft l = l := by
    cases l with
    | nil => rfl
    | cons x xs =>
      have hx := hh x rfl
      simp [trimLeft, List.dropWhile_cons, hx]
  unfold jsTrim
  rw [h1]
  cases hr : l.reverse with
  | nil =>
    have : l = [] := List.reverse_eq_nil_iff.mp hr
    subst this
    rfl
  | cons y ys =>
    have hy : l.getLast? = some y := by
      rw [← List.head?_reverse, hr]
      rfl
    have hyws := hl y hy
    unfold trimRight
    rw [hr, List.dropWhile_cons, if_neg (by simp [hyws]), ← hr, List.reverse_reverse]

/-- Every whitespace character of a normalized text is a plain space. -/
theorem normalize_ws_space (l : Str) (c : Char)
    (hc : c ∈ normalizeTextForMemory l) (hw : isJsWs c = true) : c = ' ' :=
  collapseGo_mem_ws (jsTrim l) false c hc hw

/-- Normalized text has no two adjacent whitespace characters. -/
theorem normalize_chain (l : Str) :
    List.Chain' (fun a b => ¬(isJsWs a = true ∧ isJsWs b = true))
      (normalizeTextForMemory l) :=
  collapseGo_chain (jsTrim l) false

/-- Normalized text does not start with whitespace. -/
theorem normalize_head_nonws (l : Str) (c : Char)
    (h : (normalizeTextForMemory l).head? = some c) : isJsWs c = false := by
  unfold normalizeTextForMemory collapseWhitespace at h
  cases hj : jsTrim l with
  | nil => rw [hj] at h; simp [collapseGo] at h
  | cons x xs =>
    have hx : isJsWs x = false := jsTrim_head_nonws l x (by rw [hj]; rfl)
    rw [hj, collapseGo_head_nonws (x :: xs) x rfl hx] at h
    simp only [Option.some.injEq] at h
    subst h
    exact hx

/-- Normalized text does not end with whitespace. -/
theorem normalize_getLast_nonws (l : Str) (c : Char)
    (h : (normalizeTextForMemory l).getLast? = some c) : isJsWs c = false := by
  unfold normalizeTextForMemory collapseWhitespace at h
  cases hj : jsTrim l with
  | nil => rw [hj] at h; simp [collapseGo] at h
  | cons x xs =>
    have hne : (x :: xs).getLast?.isSome = true := List.getLast?_isSome.mpr (by simp)
    obtain ⟨y, hy⟩ := Option.isSome_iff_exists.mp hne
    have hyws : isJsWs y = false := jsTrim_getLast_nonws l y (by rw [hj]; exact hy)
    obtain ⟨d, hd, hdws⟩ := collapseGo_getLast (x :: xs) false y hy hyws
    rw [hj, hd] at h
    simp only [Option.some.injEq] at h
    subst h
    exact hdws

/-- Idempotence: normalizing already-normalized text is the identity. -/
theorem normalizeTextForMemory_idem (l : Str) :
    normalizeTextForMemory (normalizeTextForMemory l) = normalizeTextForMemory l := by
  have htrim : jsTrim (normalizeTextForMemory l) = normalizeTextForMemory l :=
    jsTrim_id _ (normalize_head_nonws l) (normalize_getLast_nonws l)
  show collapseWhitespace (jsTrim (normalizeTextForMemory l)) = normalizeTextForMemory l
  rw [htrim]
  exact collapseGo_id _ false
    (normalize_ws_space l) (normalize_chain l) (by simp)

/-- The durable memory key only depends on the normalized text. -/
theorem makePersistentMemoryKey_congr (t u f : Str)
    (h : normalizeTextForMemory t = normalizeTextForMemory u) :
    makePersistentMemoryKey t f = makePersistentMemoryKey u f := by
  unfold makePersistentMemoryKey
  rw [h]

/-- A persistent-store lookup only depends on the normalized text. -/
theorem tryGetPersistentTranslation_congr (enabled : Bool) (ttl now : Int)
    (store : PersistentStore) (t u f : Str)
    (h : normalizeTextForMemory t = normalizeTextForMemory u) :
    tryGetPersistentTranslation enabled ttl now store t f
      = tryGetPersistentTranslation enabled ttl now store u f := by
  unfold tryGetPersistentTranslation
  rw [h, makePersistentMemoryKey_congr t u f h]

/-- C9: for all text `T` and fingerprint `F`, the durable memory key of `T`
equals the durable memory key of `normalize(T)`
(`makePersistentMemoryKey(T,F) == makePersistentMemoryKey(normalizeTextForMemory(T),F)`),
and a persistent-store lookup with any whitespace-variant of `T` (same text
after trimming and collapsing internal whitespace runs) yields the same
entry. -/
theorem c9_normalization_idempotent_lookup (t u f : Str) (enabled : Bool)
    (ttl now : Int) (store : PersistentStore)
    (h : normalizeTextForMemory t = normalizeTextForMemory u) :
    makePersistentMemoryKey t f
      = makePersistentMemoryKey (normalizeTextForMemory t) f
    ∧ makePersistentMemoryKey t f = makePersistentMemoryKey u f
    ∧ tryGetPersistentTranslation enabled ttl now store t f
        = tryGetPersistentTranslation enabled ttl now store u f :=
  ⟨makePersistentMemoryKey_congr t (normalizeTextForMemory t) f
      (normalizeTextForMemory_idem t).symm,
   makePersistentMemoryKey_congr t u f h,
   tryGetPersistentTranslation_congr enabled ttl now store t u f h⟩

/-- Witness for C9 at the spec's own example: `"hello   world"` and
`" hello world "` share a durable key and a lookup result. -/
theorem c9_normalization_idempotent_lookup_witness :
    makePersistentMemoryKey ("hello   world".toList) ("f".toList)
      = makePersistentMemoryKey
          (normalizeTextForMemory ("hello   world".toList)) ("f".toList)
    ∧ makePersistentMemoryKey ("hello   world".toList) ("f".toList)
        = makePersistentMemoryKey (" hello world ".toList) ("f".toList)
    ∧ tryGetPersistentTranslation true 100 0 [] ("hello   world".toList) ("f".toList)
        = tryGetPersistentTranslation true 100 0 [] (" hello world ".toList) ("f".toList) :=
  c9_normalization_idempotent_lookup ("hello   world".toList) (" hello world ".toList)
    ("f".toList) true 100 0 [] (by decide)

/-! ## Backend resolver claims -/

/-- C3: when the backend mode is `PrimaryWithSecondaryFallback`
(`azure-google-fallback`), the Primary (Azure) backend is configured
(non-blank credential) but its call fails, and the Secondary (Google) call
succeeds, `fetchTranslation` returns a ready state carrying Secondary's
result, not an error state. -/
theorem c3_fallback_returns_secondary_result (s : LingoSettings) (e : Str)
    (v : TranslationValue)
    (hmode : s.translationBackend = .AzureGoogleFallback)
    (hcfg : hasAzureConfig s = true) :
    fetchTranslation s (.error e) (.ok v) = .ready v.sourceLanguage v.text := by
  simp [fetchTranslation, hmode, hcfg]

/-- Witness for C3: Azure configured but failing with a 401, Google succeeding. -/
theorem c3_fallback_returns_secondary_result_witness :
    fetchTranslation
      ⟨some ("sv".toList), .AzureGoogleFallback, some ("key123".toList), none, none⟩
      (.error ("Azure translation failed (401)".toList))
      (.ok ⟨"en".toList, "hej".toList⟩)
      = .ready ("en".toList) ("hej".toList) :=
  c3_fallback_returns_secondary_result
    ⟨some ("sv".toList), .AzureGoogleFallback, some ("key123".toList), none, none⟩
    ("Azure translation failed (401)".toList) ⟨"en".toList, "hej".toList⟩
    rfl (by decide)

/-- C10: a 2xx Google response whose JSON body lacks a non-empty `translation`
field does not produce a missing-field error: `fetchGoogleTranslation` returns
a result whose translated text is the original input text unchanged, the
source language defaulting to `"auto"` when absent/empty, and the caller
(`fetchTranslation` in Google-only mode) produces a ready state whose text
equals the untranslated source. -/
theorem c10_google_missing_translation_falls_back_to_input (text tl : Str)
    (resp : GoogleHttpResponse) (data : GoogleTranslateResponse)
    (s : LingoSettings) (azureResult : Except Str TranslationValue)
    (hok : 200 ≤ resp.status ∧ resp.status < 300)
    (hjson : resp.json = .ok data)
    (htr : data.translation = none ∨ data.translation = some [])
    (hmode : s.translationBackend = .GoogleOnly) :
    fetchGoogleTranslation text tl resp
      = .ok { sourceLanguage := jsOrElse data.sourceLanguage ("auto".toList),
              text := text }
    ∧ ((data.sourceLanguage = none ∨ data.sourceLanguage = some []) →
        jsOrElse data.sourceLanguage ("auto".toList) = "auto".toList)
    ∧ fetchTranslation s azureResult (fetchGoogleTranslation text tl resp)
        = .ready (jsOrElse data.sourceLanguage ("auto".toList)) text := by
  have htx : jsOrElse data.translation text = text := by
    rcases htr with h | h <;> simp [jsOrElse, h]
  have h1 : fetchGoogleTranslation text tl resp
      = .ok { sourceLanguage := jsOrElse data.sourceLanguage ("auto".toList),
              text := text } := by
    unfold fetchGoogleTranslation
    rw [if_neg (not_not_intro hok), hjson]
    simp [htx]
  refine ⟨h1, ?_, ?_⟩
  · intro h
    rcases h with h | h <;> simp [jsOrElse, h]
  · rw [h1]
    simp [fetchTranslation, hmode]

/-- Witness for C10: status 200, body `{}` (no fields), Google-only mode. -/
theorem c10_google_missing_translation_falls_back_to_input_witness :
    fetchGoogleTranslation ("hola amigos".toList) ("sv".toList) ⟨200, .ok ⟨none, none⟩⟩
      = .ok { sourceLanguage := jsOrElse none ("auto".toList),
              text := "hola amigos".toList }
    ∧ ((none = (none : Option Str) ∨ (none : Option Str) = some []) →
        jsOrElse none ("auto".toList) = "auto".toList)
    ∧ fetchTranslation ⟨some ("sv".toList), .GoogleOnly, none, none, none⟩
        (.error ("unused".toList))
        (fetchGoogleTranslation ("hola amigos".toList) ("sv".toList) ⟨200, .ok ⟨none, none⟩⟩)
        = .ready (jsOrElse none ("auto".toList)) ("hola amigos".toList) :=
  c10_google_missing_translation_falls_back_to_input ("hola amigos".toList)
    ("sv".toList) ⟨200, .ok ⟨none, none⟩⟩ ⟨none, none⟩
    ⟨some ("sv".toList), .GoogleOnly, none, none, none⟩ (.error ("unused".toList))
    (by decide) rfl (Or.inl rfl) rfl

/-! ## Persistent store claims -/

theorem getAssoc_eq_none_of_not_mem {α : Type} (k : Str) (l : List (Str × α))
    (h : k ∉ l.map Prod.fst) : getAssoc k l = none := by
  induction l with
  | nil => rfl
  | cons p rest ih =>
    obtain ⟨k1, v1⟩ := p
    simp only [List.map_cons, List.mem_cons, not_or] at h
    have h1 : ¬ k1 = k := fun hk => h.1 hk.symm
    simp [getAssoc, h1, ih h.2]

theorem getAssoc_eraseAssoc {α : Type} (k : Str) (l : List (Str × α))
    (hnodup : (l.map Prod.fst).Nodup) : getAssoc k (eraseAssoc k l) = none := by
  induction l with
  | nil => rfl
  | cons p rest ih =>
    obtain ⟨k1, v1⟩ := p
    simp only [List.map_cons, List.nodup_cons] at hnodup
    by_cases h : k1 = k
    · subst h
      rw [show eraseAssoc k1 ((k1, v1) :: rest) = rest by simp [eraseAssoc]]
      exact getAssoc_eq_none_of_not_mem k1 rest hnodup.1
    · rw [show eraseAssoc k ((k1, v1) :: rest) = (k1, v1) :: eraseAssoc k rest by
        simp [eraseAssoc, h]]
      rw [show getAssoc k ((k1, v1) :: eraseAssoc k rest)
            = getAssoc k (eraseAssoc k rest) by simp [getAssoc, h]]
      exact ih hnodup.2

/-- C5: an entry whose `cachedAt` is older than the TTL at lookup time is
never returned by `tryGetPersistentTranslation`, and the lookup deletes it
from the store as a side effect. -/
theorem c5_expired_entry_not_returned_and_deleted (ttl now : Int)
    (store : PersistentStore) (text fp : Str) (entry : PersistentTranslationEntry)
    (hnodup : (store.map Prod.fst).Nodup)
    (hget : getAssoc (makePersistentMemoryKey text fp) store = some entry)
    (hmatch : entry.normalizedSource = normalizeTextForMemory text)
    (hne : normalizeTextForMemory text ≠ [])
    (hexp : isPersistentEntryExpired entry now ttl = true) :
    tryGetPersistentTranslation true ttl now store text fp
      = (none, eraseAssoc (makePersistentMemoryKey text fp) store)
    ∧ getAssoc (makePersistentMemoryKey text fp)
        (eraseAssoc (makePersistentMemoryKey text fp) store) = none := by
  refine ⟨?_, getAssoc_eraseAssoc _ store hnodup⟩
  unfold tryGetPersistentTranslation
  simp [hne, hget, hmatch, hexp]

/-- An entry cached (and last used) at time 0, for the C5 witness. -/
def sampleExpiredEntry : PersistentTranslationEntry :=
  ⟨"hi there".toList, "hej du".toList, "en".toList, 0, 0⟩

def sampleExpiredStore : PersistentStore :=
  [(makePersistentMemoryKey ("hi there".toList) ("f".toList), sampleExpiredEntry)]

/-- Witness for C5: a store holding one entry cached at time 0, looked up at
time `10^9` with a TTL of `100` ms. -/
theorem c5_expired_entry_not_returned_and_deleted_witness :
    tryGetPersistentTranslation true 100 1000000000 sampleExpiredStore
        ("hi there".toList) ("f".toList)
      = (none, eraseAssoc (makePersistentMemoryKey ("hi there".toList) ("f".toList))
          sampleExpiredStore)
    ∧ getAssoc (makePersistentMemoryKey ("hi there".toList) ("f".toList))
        (eraseAssoc (makePersistentMemoryKey ("hi there".toList) ("f".toList))
          sampleExpiredStore) = none :=
  c5_expired_entry_not_returned_and_deleted 100 1000000000 sampleExpiredStore
    ("hi there".toList) ("f".toList) sampleExpiredEntry
    (by decide) (by decide) (by decide) (by decide) (by decide)

/-- C7: a persistent-store lookup returns a stored entry only if that entry's
`normalizedSource` is exactly the normalized query text; when the bucket key
matches but the stored `normalizedSource` differs, the lookup returns
nothing. -/
theorem c7_lookup_rejects_normalized_source_mismatch (enabled : Bool)
    (ttl now : Int) (store : PersistentStore) (text fp : Str) :
    (∀ entry : PersistentTranslationEntry,
        getAssoc (makePersistentMemoryKey text fp) store = some entry →
        entry.normalizedSource ≠ normalizeTextForMemory text →
        tryGetPersistentTranslation enabled ttl now store text fp = (none, store))
    ∧ ∀ (result : TranslationState) (st' : PersistentStore),
        tryGetPersistentTranslation enabled ttl now store text fp = (some result, st') →
        ∃ entry : PersistentTranslationEntry,
          getAssoc (makePersistentMemoryKey text fp) store = some entry
          ∧ entry.normalizedSource = normalizeTextForMemory text
          ∧ result = .ready entry.sourceLanguage entry.translatedText := by
  constructor
  · intro entry hget hmm
    unfold tryGetPersistentTranslation
    by_cases he : enabled = true
    · by_cases hn : normalizeTextForMemory text = []
      · simp [he, hn]
      · simp [he, hn, hget, hmm]
    · simp [he]
  · intro result st' h
    unfold tryGetPersistentTranslation at h
    by_cases he : enabled = true
    · by_cases hn : normalizeTextForMemory text = []
      · simp [he, hn] at h
      · rcases hget : getAssoc (makePersistentMemoryKey text fp) store with _ | entry
        · simp [he, hn, hget] at h
        · by_cases hm : entry.normalizedSource = normalizeTextForMemory text
          · by_cases hex : isPersistentEntryExpired entry now ttl = true
            · simp [he, hn, hget, hm, hex] at h
            · simp [he, hn, hget, hm, hex] at h
              exact ⟨entry, rfl, hm, h.1.symm⟩
          · simp [he, hn, hget, hm] at h
    · simp [he] at h

/-- An entry whose `normalizedSource` does not match the query, for the C7
witness. -/
def sampleMismatchEntry : PersistentTranslationEntry :=
  ⟨"zz".toList, "x".toList, "en".toList, 0, 0⟩

def sampleMismatchStore : PersistentStore :=
  [(makePersistentMemoryKey ("aa bb".toList) ("f".toList), sampleMismatchEntry)]

/-- Witness for C7: a store whose entry sits at the bucket key of `"aa bb"`
but records a different `normalizedSource`; the lookup misses. -/
theorem c7_lookup_rejects_normalized_source_mismatch_witness :
    tryGetPersistentTranslation true 100 0 sampleMismatchStore
        ("aa bb".toList) ("f".toList)
      = (none, sampleMismatchStore) :=
  (c7_lookup_rejects_normalized_source_mismatch true 100 0 sampleMismatchStore
      ("aa bb".toList) ("f".toList)).1
    sampleMismatchEntry (by decide) (by decide)

/-! ## Request deduplication claims -/

/-- If a key is absent from an association list, `setAssoc` appends it. -/
theorem setAssoc_of_getAssoc_none {α : Type} (k : Str) (v : α) (l : List (Str × α))
    (h : getAssoc k l = none) : setAssoc k v l = l ++ [(k, v)] := by
  induction l with
  | nil => rfl
  | cons p rest ih =>
    obtain ⟨k1, v1⟩ := p
    by_cases hk : k1 = k
    · simp [getAssoc, hk] at h
    · simp only [getAssoc, if_neg hk] at h
      simp [setAssoc, hk, ih h]

theorem getAssoc_eq_none_iff {α : Type} (k : Str) (l : List (Str × α)) :
    getAssoc k l = none ↔ k ∉ l.map Prod.fst := by
  constructor
  · intro h hmem
    induction l with
    | nil => simp at hmem
    | cons p rest ih =>
      obtain ⟨k1, v1⟩ := p
      by_cases hk : k1 = k
      · simp [getAssoc, hk] at h
      · simp only [getAssoc, if_neg hk] at h
        rcases List.mem_cons.mp hmem with h1 | h1
        · exact hk h1.symm
        · exact ih h h1
  · exact getAssoc_eq_none_of_not_mem k l

/-- Stability: `requestTranslation` is idempotent: calling it again right after a call (with
no settlement in between) returns the same promise and leaves the state
unchanged. -/
theorem requestTranslation_stable (st : ReqState) (mid src fp : Str) :
    requestTranslation (requestTranslation st mid src fp).2 mid src fp
      = requestTranslation st mid src fp := by
  unfold requestTranslation
  rcases hc : getAssoc (getMessageCacheKey mid src fp) st.translationCache with _ | cached
  · rcases hf : getAssoc (getMessageCacheKey mid src fp) st.inFlightRequests with _ | pid
    · simp only [hc, hf]
      simp [hc, getAssoc_setAssoc]
    · simp [hc, hf]
  · simp [hc]

/-- After a stable point, `repeatRequest` returns the same promise `n` times
without changing the state. -/
theorem repeatRequest_of_fixed (st : ReqState) (mid src fp : Str) (r : PromiseRef)
    (h : requestTranslation st mid src fp = (r, st)) (n : Nat) :
    repeatRequest st mid src fp n = (List.replicate n r, st) := by
  induction n with
  | zero => rfl
  | succ n ih =>
    unfold repeatRequest
    rw [h]
    simp only [ih]
    rfl

/-- One step starts at most one producer for the requested triple. -/
theorem requestTranslation_started_le (st : ReqState) (mid src fp : Str) :
    countStartedFor (mid, src, fp) (requestTranslation st mid src fp).2
      ≤ countStartedFor (mid, src, fp) st + 1 := by
  unfold requestTranslation
  rcases hc : getAssoc (getMessageCacheKey mid src fp) st.translationCache with _ | cached
  · rcases hf : getAssoc (getMessageCacheKey mid src fp) st.inFlightRequests with _ | pid
    · simp only [hc, hf]
      simp [countStartedFor, List.filter_append, List.filter]
    · simp only [hc, hf]
      simp [countStartedFor]
  · simp only [hc]
    simp [countStartedFor]

/-- C1: for every key (messageId, sourceContent, fingerprint), if
`requestTranslation` is invoked `N` times for that key while an earlier
invocation for the same key is still unresolved, at most one producer
(persistent-store lookup followed by a scheduled backend call) is ever
started for that key, and all `N` returned promises resolve to the same
`TranslationState` value (they are all the very same promise reference). -/
theorem c1_concurrent_requests_share_one_producer (st : ReqState)
    (mid src fp : Str) (n : Nat) :
    countStartedFor (mid, src, fp) (repeatRequest st mid src fp n).2
      ≤ countStartedFor (mid, src, fp) st + 1
    ∧ (repeatRequest st mid src fp n).1
        = List.replicate n (requestTranslation st mid src fp).1
    ∧ ∀ f : Nat → TranslationState,
        (repeatRequest st mid src fp n).1.map (resolveRef f)
          = List.replicate n (resolveRef f (requestTranslation st mid src fp).1) := by
  cases n with
  | zero => exact ⟨Nat.le_add_right _ _, rfl, fun f => rfl⟩
  | succ n =>
    obtain ⟨r, st1, hstep⟩ :
        ∃ r st1, requestTranslation st mid src fp = (r, st1) :=
      ⟨_, _, rfl⟩
    have hfix : requestTranslation st1 mid src fp = (r, st1) := by
      have := requestTranslation_stable st mid src fp
      rw [hstep] at this
      exact this
    have hrep : repeatRequest st mid src fp (n + 1)
        = (r :: List.replicate n r, st1) := by
      unfold repeatRequest
      simp only [hstep, repeatRequest_of_fixed st1 mid src fp r hfix n]
    refine ⟨?_, ?_, ?_⟩
    · rw [hrep]
      have := requestTranslation_started_le st mid src fp
      rw [hstep] at this
      exact this
    · rw [hrep, hstep, ← List.replicate_succ]
    · intro f
      rw [hrep, hstep, ← List.replicate_succ]
      simp

/-- Witness for C1: three back-to-back requests for the same message from the
empty state start exactly one producer and return one shared promise. -/
theorem c1_concurrent_requests_share_one_producer_witness :
    countStartedFor ("m1".toList, "hello".toList, "f".toList)
        (repeatRequest initialReqState ("m1".toList) ("hello".toList) ("f".toList) 3).2
      ≤ countStartedFor ("m1".toList, "hello".toList, "f".toList) initialReqState + 1
    ∧ (repeatRequest initialReqState ("m1".toList) ("hello".toList) ("f".toList) 3).1
        = List.replicate 3
            (requestTranslation initialReqState ("m1".toList) ("hello".toList) ("f".toList)).1 :=
  ⟨(c1_concurrent_requests_share_one_producer initialReqState
      ("m1".toList) ("hello".toList) ("f".toList) 3).1,
   (c1_concurrent_requests_share_one_producer initialReqState
      ("m1".toList) ("hello".toList) ("f".toList) 3).2.1⟩

/-! ### C2: the at-most-one-call guarantee is per volatile key, not per
(text, config) pair -/

theorem eraseAssoc_sublist {α : Type} (k : Str) (l : List (Str × α)) :
    (eraseAssoc k l).Sublist l := by
  induction l with
  | nil => exact List.Sublist.refl []
  | cons p rest ih =>
    obtain ⟨k1, v1⟩ := p
    by_cases hk : k1 = k
    · rw [show eraseAssoc k ((k1, v1) :: rest) = rest by simp [eraseAssoc, hk]]
      exact List.sublist_cons_of_sublist _ (List.Sublist.refl rest)
    · rw [show eraseAssoc k ((k1, v1) :: rest) = (k1, v1) :: eraseAssoc k rest by
        simp [eraseAssoc, hk]]
      exact List.Sublist.cons₂ _ ih

/-- The in-flight registry never holds two entries with the same key. -/
theorem runReqEvents_inflight_nodup (events : List ReqEvent) (st : ReqState)
    (h : (st.inFlightRequests.map Prod.fst).Nodup) :
    ((runReqEvents st events).inFlightRequests.map Prod.fst).Nodup := by
  induction events generalizing st with
  | nil => exact h
  | cons e rest ih =>
    refine ih (stepReqEvent st e) ?_
    cases e with
    | request mid src fp =>
      show (((requestTranslation st mid src fp).2).inFlightRequests.map Prod.fst).Nodup
      unfold requestTranslation
      rcases hc : getAssoc (getMessageCacheKey mid src fp) st.translationCache with _ | cached
      · rcases hf : getAssoc (getMessageCacheKey mid src fp) st.inFlightRequests with _ | pid
        · simp only [hc, hf]
          rw [setAssoc_of_getAssoc_none _ _ _ hf, List.map_append]
          rw [List.nodup_append]
          refine ⟨h, List.nodup_singleton _, ?_⟩
          intro a ha hb
          simp only [List.map_cons, List.map_nil, List.mem_singleton] at hb
          subst hb
          exact (getAssoc_eq_none_iff _ _).mp hf ha
        · simpa [hc, hf] using h
      · simpa [hc] using h
    | settle key result =>
      show (((settleTranslation st key result)).inFlightRequests.map Prod.fst).Nodup
      unfold settleTranslation
      exact ((eraseAssoc_sublist key st.inFlightRequests).map Prod.fst).nodup h

theorem countKey_le_one_of_nodup {α : Type} (k : Str) (l : List (Str × α))
    (h : (l.map Prod.fst).Nodup) : (l.filter (fun p => p.1 = k)).length ≤ 1 := by
  induction l with
  | nil => simp
  | cons p rest ih =>
    obtain ⟨k1, v1⟩ := p
    simp only [List.map_cons, List.nodup_cons] at h
    by_cases hk : k1 = k
    · subst hk
      have hrest : rest.filter (fun p => p.1 = k1) = [] := by
        rw [List.filter_eq_nil_iff]
        intro a ha hcontra
        exact h.1 (by
          simp only [decide_eq_true_eq] at hcontra
          rw [← hcontra]
          exact List.mem_map_of_mem Prod.fst ha)
      simp [List.filter, hrest]
    · have : List.filter (fun p => decide (p.1 = k)) ((k1, v1) :: rest)
          = rest.filter (fun p => p.1 = k) := by
        simp [List.filter, hk]
      simpa [this] using ih h.2

/-- C2 (amended): the in-flight registry guarantees at most one outstanding
producer per volatile cache key `(messageId, sourceContent, fingerprint)` —
not per `(text, config)` pair — over any interleaving of requests and
completions from the initial state. -/
theorem c2_at_most_one_inflight_per_key (events : List ReqEvent) (k : Str) :
    countKeyInFlight k (runReqEvents initialReqState events) ≤ 1 :=
  countKey_le_one_of_nodup k _
    (runReqEvents_inflight_nodup events initialReqState (by simp [initialReqState]))

/-- Counterexample to C2 as stated: two concurrent requests for two different
message ids carrying identical text under the same fingerprint register two
simultaneous in-flight producers, both recorded for the same
`(sourceContent, fingerprint)` pair — so with an empty persistent store two
backend calls for the same (text, config) are outstanding at once. -/
theorem c2_per_text_dedup_counterexample :
    ("m1".toList : Str) ≠ ("m2".toList : Str)
    ∧ (runReqEvents initialReqState
        [.request ("m1".toList) ("same text".toList) ("f".toList),
         .request ("m2".toList) ("same text".toList) ("f".toList)]).startedProducers
        = [(("m1".toList), ("same text".toList), ("f".toList)),
           (("m2".toList), ("same text".toList), ("f".toList))]
    ∧ (runReqEvents initialReqState
        [.request ("m1".toList) ("same text".toList) ("f".toList),
         .request ("m2".toList) ("same text".toList) ("f".toList)]).inFlightRequests.length
        = 2 := by
  refine ⟨by decide, ?_, ?_⟩ <;> rfl

/-! ## Mutation batcher claims -/

theorem scheduleMessageMutationFlush_pending (delay : Nat) (st : BatcherState) :
    (scheduleMessageMutationFlush delay st).pendingMessageMutations
      = st.pendingMessageMutations := by
  unfold scheduleMessageMutationFlush
  split <;> rfl

theorem scheduleMessageMutationFlush_applied (delay : Nat) (st : BatcherState) :
    (scheduleMessageMutationFlush delay st).applied = st.applied := by
  unfold scheduleMessageMutationFlush
  split <;> rfl

/-- Concrete scenario refuting C4 as stated: with the scroll-active flag
held `true`, a manual show-original toggle (`restoreOriginalMessage`) on a
message currently displaying its translation enqueues the restore mutation,
but the next flush applies nothing — the toggle's mutation is deferred like
every other one, not bypassed past the scroll-state deferral. -/
def c4tracked : List (Str × TrackedMessageEntry) :=
  [(("m1".toList), ⟨"c1".toList, "hello".toList, "HEJ".toList⟩)]

def c4msg : MsgView := ⟨"m1".toList, "c1".toList, "HEJ".toList, none, none⟩

def c4start : BatcherState := ⟨[], none, []⟩

/-- Counterexample to C4: the toggle's mutation sits in the pending queue and
the flush that runs while scroll-active applies zero mutations. -/
theorem c4_toggle_not_applied_while_scrolling_counterexample :
    (flushPendingMessageMutations true
        (restoreOriginalMessage c4tracked c4msg ("hello".toList) c4start)).applied = []
    ∧ (flushPendingMessageMutations true
        (restoreOriginalMessage c4tracked c4msg ("hello".toList) c4start)).pendingMessageMutations
      = [(("m1".toList),
          ⟨"c1".toList, "hello".toList, "hello".toList, "HEJ".toList⟩)] := by
  refine ⟨?_, ?_⟩ <;> rfl

/-- C4 (amended): a manual toggle (`restoreOriginalMessage`) enqueues its
restore mutation unconditionally — it never consults the scroll-active flag,
unlike the automatic translation path (`replaceMessageWithTranslation`),
which is a no-op while scroll-active — but the enqueued mutation is applied
only after scrolling ends: while scroll-active every flush applies zero
mutations, leaves the queue untouched and reschedules itself. -/
theorem c4_toggle_enqueued_but_flush_deferred
    (tracked : List (Str × TrackedMessageEntry)) (msg : MsgView)
    (sourceContent : Str) (st : BatcherState)
    (hnone : getAssoc msg.id st.pendingMessageMutations = none)
    (hdiff : msg.content
      ≠ ((getAssoc msg.id tracked).map (·.originalContent)).getD sourceContent) :
    getAssoc msg.id
        (restoreOriginalMessage tracked msg sourceContent st).pendingMessageMutations
      = some { channelId := msg.channelId,
               content :=
                 ((getAssoc msg.id tracked).map (·.originalContent)).getD sourceContent,
               originalContent :=
                 ((getAssoc msg.id tracked).map (·.originalContent)).getD sourceContent,
               translatedContent :=
                 ((getAssoc msg.id tracked).map (·.translatedContent)).getD
                   (msg.translatedField.getD []) }
    ∧ (∀ st2 : BatcherState,
        (flushPendingMessageMutations true st2).applied = st2.applied
        ∧ (flushPendingMessageMutations true st2).pendingMessageMutations
            = st2.pendingMessageMutations
        ∧ (flushPendingMessageMutations true st2).flushTimer.isSome = true)
    ∧ ∀ (nodeExists : Bool) (tr2 : List (Str × TrackedMessageEntry)) (msg2 : MsgView)
        (s2 t2 : Str) (st2 : BatcherState),
        replaceMessageWithTranslation true nodeExists tr2 msg2 s2 t2 st2 = (tr2, st2) := by
  refine ⟨?_, ?_, ?_⟩
  · unfold restoreOriginalMessage
    rw [if_neg (fun hcontra => hdiff hcontra.1)]
    unfold enqueueMessageMutation
    rw [hnone]
    rw [scheduleMessageMutationFlush_pending]
    exact getAssoc_setAssoc _ _ _
  · intro st2
    refine ⟨?_, ?_, ?_⟩
    · unfold flushPendingMessageMutations
      rw [if_pos rfl, scheduleMessageMutationFlush_applied]
    · unfold flushPendingMessageMutations
      rw [if_pos rfl, scheduleMessageMutationFlush_pending]
    · unfold flushPendingMessageMutations
      rw [if_pos rfl]
      unfold scheduleMessageMutationFlush
      simp
  · intro nodeExists tr2 msg2 s2 t2 st2
    unfold replaceMessageWithTranslation
    rw [if_pos rfl]

/-- Witness for the amended C4, at the counterexample's own scenario. -/
theorem c4_toggle_enqueued_but_flush_deferred_witness :
    getAssoc ("m1".toList)
        (restoreOriginalMessage c4tracked c4msg ("hello".toList) c4start).pendingMessageMutations
      = some { channelId := "c1".toList,
               content :=
                 ((getAssoc ("m1".toList) c4tracked).map (·.originalContent)).getD ("hello".toList),
               originalContent :=
                 ((getAssoc ("m1".toList) c4tracked).map (·.originalContent)).getD ("hello".toList),
               translatedContent :=
                 ((getAssoc ("m1".toList) c4tracked).map (·.translatedContent)).getD
                   ((none : Option Str).getD []) } :=
  (c4_toggle_enqueued_but_flush_deferred c4tracked c4msg ("hello".toList) c4start
    (by decide) (by decide)).1

/-! ## Config fingerprint claims -/

/-- Splitting at the first occurrence of a separator is unambiguous. -/
theorem append_sep_inj (sep : Char) (a b r1 r2 : Str) (ha : sep ∉ a) (hb : sep ∉ b)
    (h : a ++ sep :: r1 = b ++ sep :: r2) : a = b ∧ r1 = r2 := by
  induction a generalizing b with
  | nil =>
    cases b with
    | nil => simpa using h
    | cons y b' =>
      simp only [List.nil_append, List.cons_append, List.cons.injEq] at h
      have : sep ∈ y :: b' := by rw [h.1]; exact List.mem_cons_self y b'
      exact absurd this hb
  | cons x a' ih =>
    cases b with
    | nil =>
      simp only [List.cons_append, List.nil_append, List.cons.injEq] at h
      have : sep ∈ x :: a' := by rw [← h.1]; exact List.mem_cons_self x a'
      exact absurd this ha
    | cons y b' =>
      simp only [List.cons_append, List.cons.injEq] at h
      obtain ⟨hxy, h'⟩ := h
      have hrec := ih b' (fun hm => ha (List.mem_cons_of_mem x hm))
        (fun hm => hb (List.mem_cons_of_mem y hm)) h'
      exact ⟨by rw [hxy, hrec.1], hrec.2⟩

theorem backendModeString_pipe_free (m : BackendMode) : '|' ∉ backendModeString m := by
  cases m <;> decide

theorem backendModeString_inj (m1 m2 : BackendMode)
    (h : backendModeString m1 = backendModeString m2) : m1 = m2 := by
  cases m1 <;> cases m2 <;> first | rfl | (exfalso; revert h; decide)

/-- Two settings snapshots that disagree on the normalized target language or
on the backend mode (with pipe-free normalized target languages) have
different fingerprints. -/
theorem getTranslatorConfigFingerprint_inj (s1 s2 : LingoSettings)
    (h1 : '|' ∉ normalizeTargetLanguage s1.targetLanguage)
    (h2 : '|' ∉ normalizeTargetLanguage s2.targetLanguage)
    (hdiff : normalizeTargetLanguage s1.targetLanguage
        ≠ normalizeTargetLanguage s2.targetLanguage
      ∨ s1.translationBackend ≠ s2.translationBackend) :
    getTranslatorConfigFingerprint s1 ≠ getTranslatorConfigFingerprint s2 := by
  intro heq
  unfold getTranslatorConfigFingerprint at heq
  simp only [joinPipe] at heq
  obtain ⟨ha, hrest⟩ := append_sep_inj '|' _ _ _ _ h1 h2 heq
  obtain ⟨hbm, _⟩ := append_sep_inj '|' _ _ _ _
    (backendModeString_pipe_free s1.translationBackend)
    (backendModeString_pipe_free s2.translationBackend) hrest
  rcases hdiff with hd | hd
  · exact hd ha
  · exact hd (backendModeString_inj _ _ hbm)

/-- Distinct fingerprints give distinct durable keys for the same text (the
fingerprint is the key's prefix, followed by identical length/hash parts). -/
theorem makePersistentMemoryKey_fp_inj (t f1 f2 : Str) (h : f1 ≠ f2) :
    makePersistentMemoryKey t f1 ≠ makePersistentMemoryKey t f2 := by
  intro heq
  unfold makePersistentMemoryKey at heq
  dsimp only at heq
  exact h (List.append_cancel_right (List.append_cancel_right heq))

/-- C8 (amended): for settings snapshots whose *normalized* target languages
are pipe-free, differing in the normalized target language or in the backend
mode changes the fingerprint, hence the durable key, hence a lookup under the
new settings misses a store populated under the old fingerprint.  (As stated
the claim is false: normalization means e.g. `"sv"` vs `"SV"` differ as
fields yet share a fingerprint — see the counterexample.) -/
theorem c8_fingerprint_sensitivity (s1 s2 : LingoSettings) (t : Str)
    (e : PersistentTranslationEntry) (enabled : Bool) (ttl now : Int)
    (h1 : '|' ∉ normalizeTargetLanguage s1.targetLanguage)
    (h2 : '|' ∉ normalizeTargetLanguage s2.targetLanguage)
    (hdiff : normalizeTargetLanguage s1.targetLanguage
        ≠ normalizeTargetLanguage s2.targetLanguage
      ∨ s1.translationBackend ≠ s2.translationBackend) :
    getTranslatorConfigFingerprint s1 ≠ getTranslatorConfigFingerprint s2
    ∧ makePersistentMemoryKey t (getTranslatorConfigFingerprint s1)
        ≠ makePersistentMemoryKey t (getTranslatorConfigFingerprint s2)
    ∧ (tryGetPersistentTranslation enabled ttl now
        [(makePersistentMemoryKey t (getTranslatorConfigFingerprint s1), e)]
        t (getTranslatorConfigFingerprint s2)).1 = none := by
  have hfp := getTranslatorConfigFingerprint_inj s1 s2 h1 h2 hdiff
  have hkey := makePersistentMemoryKey_fp_inj t _ _ hfp
  refine ⟨hfp, hkey, ?_⟩
  unfold tryGetPersistentTranslation
  by_cases he : enabled = true
  · by_cases hn : normalizeTextForMemory t = []
    · simp [he, hn]
    · have hmiss : getAssoc (makePersistentMemoryKey t (getTranslatorConfigFingerprint s2))
          [(makePersistentMemoryKey t (getTranslatorConfigFingerprint s1), e)] = none := by
        unfold getAssoc
        rw [if_neg hkey]
        rfl
      simp [he, hn, hmiss]
  · simp [he]

/-- Witness for the amended C8: changing the target language from `sv` to `de`
changes the fingerprint and makes the lookup miss. -/
theorem c8_fingerprint_sensitivity_witness :
    getTranslatorConfigFingerprint ⟨some ("sv".toList), .AzureGoogleFallback, none, none, none⟩
      ≠ getTranslatorConfigFingerprint ⟨some ("de".toList), .AzureGoogleFallback, none, none, none⟩
    ∧ makePersistentMemoryKey ("hej".toList)
        (getTranslatorConfigFingerprint ⟨some ("sv".toList), .AzureGoogleFallback, none, none, none⟩)
      ≠ makePersistentMemoryKey ("hej".toList)
        (getTranslatorConfigFingerprint ⟨some ("de".toList), .AzureGoogleFallback, none, none, none⟩)
    ∧ (tryGetPersistentTranslation true 100 0
        [(makePersistentMemoryKey ("hej".toList)
            (getTranslatorConfigFingerprint ⟨some ("sv".toList), .AzureGoogleFallback, none, none, none⟩),
          ⟨"hej".toList, "tjena".toList, "en".toList, 0, 0⟩)]
        ("hej".toList)
        (getTranslatorConfigFingerprint ⟨some ("de".toList), .AzureGoogleFallback, none, none, none⟩)).1
      = none :=
  c8_fingerprint_sensitivity
    ⟨some ("sv".toList), .AzureGoogleFallback, none, none, none⟩
    ⟨some ("de".toList), .AzureGoogleFallback, none, none, none⟩
    ("hej".toList) ⟨"hej".toList, "tjena".toList, "en".toList, 0, 0⟩ true 100 0
    (by decide) (by decide) (Or.inl (by decide))

/-- Counterexample to C8 as stated: the snapshots with `targetLanguage = "sv"`
and `targetLanguage = "SV"` differ in the `targetLanguage` field yet share a
fingerprint, and a lookup under the new settings for text cached under the
old settings *hits* instead of missing. -/
theorem c8_fingerprint_counterexample :
    (⟨some ("sv".toList), .AzureGoogleFallback, none, none, none⟩ : LingoSettings).targetLanguage
      ≠ (⟨some ("SV".toList), .AzureGoogleFallback, none, none, none⟩ : LingoSettings).targetLanguage
    ∧ getTranslatorConfigFingerprint ⟨some ("sv".toList), .AzureGoogleFallback, none, none, none⟩
        = getTranslatorConfigFingerprint ⟨some ("SV".toList), .AzureGoogleFallback, none, none, none⟩
    ∧ (tryGetPersistentTranslation true 100 0
        [(makePersistentMemoryKey ("hej".toList)
            (getTranslatorConfigFingerprint ⟨some ("sv".toList), .AzureGoogleFallback, none, none, none⟩),
          ⟨"hej".toList, "tjena".toList, "en".toList, 0, 0⟩)]
        ("hej".toList)
        (getTranslatorConfigFingerprint ⟨some ("SV".toList), .AzureGoogleFallback, none, none, none⟩)).1
      = some (.ready ("en".toList) ("tjena".toList)) := by
  refine ⟨by decide, by decide, by decide⟩

/-! ## Pruning claims -/

theorem eraseAssoc_eq_filter {α : Type} (k : Str) (l : List (Str × α))
    (hnodup : (l.map Prod.fst).Nodup) :
    eraseAssoc k l = l.filter (fun p => p.1 ≠ k) := by
  induction l with
  | nil => rfl
  | cons p rest ih =>
    obtain ⟨k1, v1⟩ := p
    simp only [List.map_cons, List.nodup_cons] at hnodup
    by_cases hk : k1 = k
    · subst hk
      rw [show eraseAssoc k1 ((k1, v1) :: rest) = rest by simp [eraseAssoc]]
      rw [show List.filter (fun p => decide ¬(p.1 = k1)) ((k1, v1) :: rest)
            = List.filter (fun p => decide ¬(p.1 = k1)) rest by simp [List.filter]]
      symm
      rw [List.filter_eq_self]
      intro a ha
      have : a.1 ≠ k1 := fun hc =>
        hnodup.1 (hc ▸ List.mem_map_of_mem Prod.fst ha)
      simpa using this
    · rw [show eraseAssoc k ((k1, v1) :: rest) = (k1, v1) :: eraseAssoc k rest by
        simp [eraseAssoc, hk]]
      rw [show List.filter (fun p => decide ¬(p.1 = k)) ((k1, v1) :: rest)
            = (k1, v1) :: List.filter (fun p => decide ¬(p.1 = k)) rest by
        simp [List.filter, hk]]
      rw [ih hnodup.2]

theorem foldl_eraseAssoc_eq_filter {α : Type} (ks : List Str) (l : List (Str × α))
    (hnodup : (l.map Prod.fst).Nodup) :
    ks.foldl (fun acc k => eraseAssoc k acc) l = l.filter (fun p => p.1 ∉ ks) := by
  induction ks generalizing l with
  | nil => simp
  | cons k ks' ih =>
    simp only [List.foldl_cons]
    rw [eraseAssoc_eq_filter k l hnodup]
    have hnodup' : ((l.filter (fun p => p.1 ≠ k)).map Prod.fst).Nodup :=
      ((List.filter_sublist l).map Prod.fst).nodup hnodup
    rw [ih _ hnodup', List.filter_filter]
    apply List.filter_congr
    intro p _
    by_cases hk : p.1 = k <;> by_cases hks : p.1 ∈ ks' <;> simp [hk, hks]

theorem lastUsedLe_trans (a b c : Str × PersistentTranslationEntry)
    (hab : lastUsedLe a b = true) (hbc : lastUsedLe b c = true) :
    lastUsedLe a c = true := by
  simp only [lastUsedLe, decide_eq_true_eq] at *
  omega

theorem lastUsedLe_total (a b : Str × PersistentTranslationEntry) :
    (lastUsedLe a b || lastUsedLe b a) = true := by
  simp only [lastUsedLe, Bool.or_eq_true, decide_eq_true_eq]
  omega

/-- C6 (amended): when the store's entry count exceeds `maxEntries` and no
entry is TTL-expired at prune time, `prunePersistentMemory` keeps exactly
`maxEntries` entries of the store (so removes exactly `count - maxEntries`),
and every removed entry's `lastUsedAt` is no larger than every kept entry's.
(As stated the claim is false: TTL-expired entries are removed first,
regardless of their `lastUsedAt` — see the counterexample.) -/
theorem c6_prune_removes_oldest_overflow (now ttl : Int) (maxEntries : Nat)
    (store : PersistentStore)
    (hnoexp : ∀ kv ∈ store, isPersistentEntryExpired kv.2 now ttl = false)
    (hover : maxEntries < store.length)
    (hnodup : (store.map Prod.fst).Nodup) :
    (prunePersistentMemory now ttl maxEntries store).length = maxEntries
    ∧ (∀ kv ∈ prunePersistentMemory now ttl maxEntries store, kv ∈ store)
    ∧ ∀ kv ∈ store, kv ∉ prunePersistentMemory now ttl maxEntries store →
        ∀ kv' ∈ prunePersistentMemory now ttl maxEntries store,
          kv.2.lastUsedAt ≤ kv'.2.lastUsedAt := by
  have hfilter :
      store.filter (fun kv => ¬ isPersistentEntryExpired kv.2 now ttl) = store :=
    List.filter_eq_self.mpr (fun kv hkv => by simp [hnoexp kv hkv])
  set kk := store.length - maxEntries with hkk
  set sorted := store.mergeSort lastUsedLe with hsorteddef
  set removedKeys := (sorted.take kk).map Prod.fst with hrk
  have hprune : prunePersistentMemory now ttl maxEntries store
      = store.filter (fun p => p.1 ∉ removedKeys) := by
    unfold prunePersistentMemory
    rw [hfilter, if_neg (by omega)]
    exact foldl_eraseAssoc_eq_filter removedKeys store hnodup
  have hperm : sorted.Perm store := List.mergeSort_perm store lastUsedLe
  have hsortnodup : (sorted.map Prod.fst).Nodup :=
    ((hperm.map Prod.fst).nodup_iff).mpr hnodup
  have hsorted : List.Pairwise (fun a b => lastUsedLe a b = true) sorted :=
    List.sorted_mergeSort lastUsedLe_trans lastUsedLe_total store
  have htd : sorted.take kk ++ sorted.drop kk = sorted := List.take_append_drop kk sorted
  have hkeysplit : (sorted.take kk).map Prod.fst ++ (sorted.drop kk).map Prod.fst
      = sorted.map Prod.fst := by rw [← List.map_append, htd]
  have hdisj : ((sorted.take kk).map Prod.fst).Disjoint ((sorted.drop kk).map Prod.fst) :=
    (List.nodup_append.mp (hkeysplit ▸ hsortnodup)).2.2
  have hdropkeys : ∀ x ∈ sorted.drop kk, x.1 ∉ removedKeys := by
    intro x hx hmem
    exact hdisj hmem (List.mem_map_of_mem Prod.fst hx)
  have hfiltertake :
      (sorted.take kk).filter (fun p => p.1 ∉ removedKeys) = [] := by
    rw [List.filter_eq_nil_iff]
    intro x hx
    simp only [decide_not, Bool.not_eq_true', Bool.not_eq_false, decide_eq_true_eq]
    exact List.mem_map_of_mem Prod.fst hx
  have hfilterdrop :
      (sorted.drop kk).filter (fun p => p.1 ∉ removedKeys) = sorted.drop kk :=
    List.filter_eq_self.mpr (fun x hx => by simpa using hdropkeys x hx)
  have hresperm : (store.filter (fun p => p.1 ∉ removedKeys)).Perm (sorted.drop kk) := by
    have h1 : (store.filter (fun p => p.1 ∉ removedKeys)).Perm
        (sorted.filter (fun p => p.1 ∉ removedKeys)) :=
      List.Perm.filter _ hperm.symm
    rw [← htd, List.filter_append, hfiltertake, hfilterdrop, List.nil_append] at h1
    exact h1
  have hlen : (store.filter (fun p => p.1 ∉ removedKeys)).length = maxEntries := by
    rw [hresperm.length_eq, List.length_drop, hperm.length_eq, hkk,
      Nat.sub_sub_self (Nat.le_of_lt hover)]
  refine ⟨by rw [hprune]; exact hlen, ?_, ?_⟩
  · intro kv hkv
    rw [hprune] at hkv
    exact List.mem_of_mem_filter hkv
  · intro kv hkvstore hkvout kv' hkv'
    rw [hprune] at hkvout hkv'
    have hkv'drop : kv' ∈ sorted.drop kk := hresperm.mem_iff.mp hkv'
    have hkvsorted : kv ∈ sorted := hperm.mem_iff.mpr hkvstore
    have hkvtake : kv ∈ sorted.take kk := by
      rcases List.mem_append.mp (htd ▸ hkvsorted) with h | h
      · exact h
      · exact absurd (List.mem_filter.mpr
          ⟨hkvstore, by simpa using hdropkeys kv h⟩) hkvout
    have hpw := List.pairwise_append.mp (htd ▸ hsorted)
    have := hpw.2.2 kv hkvtake kv' hkv'drop
    simpa [lastUsedLe, decide_eq_true_eq] using this

/-- Witness for the amended C6: three fresh entries, `maxEntries = 2`; pruning
keeps the two most recently used and drops the least recently used one. -/
theorem c6_prune_removes_oldest_overflow_witness :
    (prunePersistentMemory 1000 1000000 2
        [(("k1".toList), ⟨"a".toList, "x".toList, "en".toList, 900, 5⟩),
         (("k2".toList), ⟨"b".toList, "y".toList, "en".toList, 900, 50⟩),
         (("k3".toList), ⟨"c".toList, "z".toList, "en".toList, 900, 20⟩)]).length = 2
    ∧ (∀ kv ∈ prunePersistentMemory 1000 1000000 2
        [(("k1".toList), ⟨"a".toList, "x".toList, "en".toList, 900, 5⟩),
         (("k2".toList), ⟨"b".toList, "y".toList, "en".toList, 900, 50⟩),
         (("k3".toList), ⟨"c".toList, "z".toList, "en".toList, 900, 20⟩)],
        kv ∈ [(("k1".toList), ⟨"a".toList, "x".toList, "en".toList, 900, 5⟩),
         (("k2".toList), ⟨"b".toList, "y".toList, "en".toList, 900, 50⟩),
         (("k3".toList), ⟨"c".toList, "z".toList, "en".toList, 900, 20⟩)]) :=
  ⟨(c6_prune_removes_oldest_overflow 1000 1000000 2 _
      (by decide) (by decide) (by decide)).1,
   (c6_prune_removes_oldest_overflow 1000 1000000 2 _
      (by decide) (by decide) (by decide)).2.1⟩

def c6entryA : PersistentTranslationEntry := ⟨"a".toList, "x".toList, "en".toList, 0, 100⟩

def c6entryB : PersistentTranslationEntry := ⟨"b".toList, "y".toList, "en".toList, 999999, 0⟩

def c6store : PersistentStore := [(("ka".toList), c6entryA), (("kb".toList), c6entryB)]

/-- Counterexample to C6 as stated: with `maxEntries = 1` and a store of two
entries where the TTL-expired entry `A` has the *larger* `lastUsedAt`,
pruning removes `A` (TTL pass) and keeps `B` — the removed entry is not the
one with the smallest `lastUsedAt`. -/
theorem c6_prune_counterexample :
    c6store.length - 1 = 1
    ∧ c6entryB.lastUsedAt < c6entryA.lastUsedAt
    ∧ prunePersistentMemory 1000000 10 1 c6store = [(("kb".toList), c6entryB)] := by
  refine ⟨by decide, by decide, by decide⟩

end Lingo
